import Mathlib

set_option maxRecDepth 8000

/-!
A verification development for the CherryPi custom RF decoder
(`src/RFController/custom_rf_decoder.py`).

The decoder turns a captured stream of `(pulse_duration_us, level)` samples
into a validated integer code or a structured decode error.  Pulse durations
are Python integers, modelled as `ℕ`; Python float arithmetic (averages,
tolerance comparisons, confidence ratios) is modelled exactly over `ℚ`.
The GPIO capture loop itself is abstracted away: every function below takes
the already-captured timing list as input, exactly as the pure pipeline in
the source consumes it.
-/

namespace RFDecoder

/-- Fixed sync-gap threshold in microseconds (`self.sync_gap_threshold = 4000`). -/
def sync_gap_threshold : ℕ := 4000

/-- Default classification tolerance (`tolerance=0.4` in `CustomRFDecoder.__init__`). -/
def default_tolerance : ℚ := 2 / 5

/-- Accumulator loop of `find_code_segments`: walk the timing list, close the
current segment at every duration above the threshold (keeping it only when it
has at least 40 samples, and dropping the gap itself), and close the final
accumulated segment the same way at end of input. -/
def segmentsAux (thr : ℕ) : List (ℕ × Bool) → List ℕ → List (List ℕ)
  | [], current_segment =>
      if 40 ≤ current_segment.length then [current_segment] else []
  | (pulse_us, _) :: rest, current_segment =>
      if thr < pulse_us then
        (if 40 ≤ current_segment.length then [current_segment] else []) ++
          segmentsAux thr rest []
      else
        segmentsAux thr rest (current_segment ++ [pulse_us])

/-- The segmenter `CustomRFDecoder.find_code_segments`: split the raw timings
into candidate code segments at sync gaps. -/
def find_code_segments (thr : ℕ) (timings : List (ℕ × Bool)) : List (List ℕ) :=
  segmentsAux thr timings []

/-- Membership test of the short-pulse band `150 < d < 450` used to estimate
`short_avg` in `decode_segment`. -/
def shortBand (d : ℕ) : Bool := decide (150 < d ∧ d < 450)

/-- Membership test of the long-pulse band `450 < d < 1200` used to estimate
`long_avg` in `decode_segment`. -/
def longBand (d : ℕ) : Bool := decide (450 < d ∧ d < 1200)

/-- Arithmetic mean of a list of durations, as computed by
`sum(pulses) / len(pulses)` in `decode_segment`. -/
def listAvg (l : List ℕ) : ℚ := (l.map (Nat.cast : ℕ → ℚ)).sum / (l.length : ℚ)

/-- Classification test `abs(t - avg) < avg * tol` from the bit-decoding loop of
`decode_segment`. -/
def pulseMatches (avg tol : ℚ) (t : ℕ) : Bool := decide (|(t : ℚ) - avg| < avg * tol)

/-- The resynchronizing bit-extraction walk of `decode_segment`: starting from
the head of the remaining durations, a `(short, long)` pair emits bit 0 and
advances by two, a `(long, short)` pair emits bit 1 and advances by two, and
any other pair advances by a single sample.  The walk stops when fewer than two
durations remain (`while i < len(durations) - 1`). -/
def extractBits (tol short_avg long_avg : ℚ) : List ℕ → List Bool
  | t1 :: t2 :: rest =>
      if pulseMatches short_avg tol t1 && pulseMatches long_avg tol t2 then
        false :: extractBits tol short_avg long_avg rest
      else if pulseMatches long_avg tol t1 && pulseMatches short_avg tol t2 then
        true :: extractBits tol short_avg long_avg rest
      else
        extractBits tol short_avg long_avg (t2 :: rest)
  | _ => []

/-- MSB-first packing `code = (code << 1) | b` over a bit list. -/
def packBits (bits : List Bool) : ℕ :=
  bits.foldl (fun code b => 2 * code + (if b then 1 else 0)) 0

/-- The decoded-segment dictionary built by `decode_segment` on success. -/
structure DecodedCandidate where
  code : ℕ
  pulselength : ℤ
  protocol : ℕ
  bits : ℕ
  short_pulse : ℤ
  long_pulse : ℤ
deriving DecidableEq, Inhabited

/-- `CustomRFDecoder.decode_segment`: decode one segment of pulse durations
into a candidate code, or `none`. -/
def decode_segment (tol : ℚ) (durations : List ℕ) : Option DecodedCandidate :=
  if durations.length < 40 then none else
  let short_pulses := durations.filter shortBand
  let long_pulses := durations.filter longBand
  if short_pulses.length < 10 ∨ long_pulses.length < 10 then none else
  let short_avg := listAvg short_pulses
  let long_avg := listAvg long_pulses
  let bits := extractBits tol short_avg long_avg durations
  if 20 ≤ bits.length ∧ bits.length ≤ 28 then
    let code := packBits (bits.take 24)
    if 1000 < code then
      some { code := code, pulselength := ⌊short_avg⌋, protocol := 1, bits := bits.length,
             short_pulse := ⌊short_avg⌋, long_pulse := ⌊long_avg⌋ }
    else none
  else none

/-- Round-half-to-even on `ℚ`, the rounding mode of Python's `round`. -/
def roundHalfEven (q : ℚ) : ℤ :=
  if q - ⌊q⌋ < 1 / 2 then ⌊q⌋
  else if 1 / 2 < q - ⌊q⌋ then ⌊q⌋ + 1
  else if ⌊q⌋ % 2 = 0 then ⌊q⌋ else ⌊q⌋ + 1

/-- Python's `round(q, n)` to `n` decimal places, modelled exactly on `ℚ`. -/
def pyRound (q : ℚ) (n : ℕ) : ℚ := (roundHalfEven (q * 10 ^ n) : ℚ) / 10 ^ n

/-- One entry of the `competing_codes` diagnostic list built for
`AMBIGUOUS_SIGNAL` errors. -/
structure CompetingCode where
  code : ℕ
  count : ℕ
  percentage : ℚ
deriving DecidableEq

/-- A value of the `details` dictionary attached to an `RFDecodeError`:
a number, a human-readable string, or the competing-codes list. -/
inductive Detail where
  | num (q : ℚ)
  | txt (s : String)
  | codes (l : List CompetingCode)
deriving DecidableEq

/-- The `RFDecodeError` exception payload: an error-type tag, a message, and a
structured `details` dictionary (modelled as an ordered key/value list). -/
structure RFDecodeError where
  error_type : String
  message : String
  details : List (String × Detail)
deriving DecidableEq

/-- The success dictionary returned by `capture_single_window`, flattened to
the serialized field set `code, pulselength, protocol, bits, short_pulse,
long_pulse, times_seen, segments_found, total_codes_found, confidence,
decode_success_rate`. -/
structure CaptureResult where
  code : ℕ
  pulselength : ℤ
  protocol : ℕ
  bits : ℕ
  short_pulse : ℤ
  long_pulse : ℤ
  times_seen : ℕ
  segments_found : ℕ
  total_codes_found : ℕ
  confidence : ℚ
  decode_success_rate : ℚ
deriving DecidableEq

/-- Update of the `codes_found` dictionary for one decoded candidate: bump the
count of an existing code (keeping the first stored result) or append a new
entry, preserving Python dict insertion order. -/
def insertCode (r : DecodedCandidate) :
    List (ℕ × DecodedCandidate × ℕ) → List (ℕ × DecodedCandidate × ℕ)
  | [] => [(r.code, r, 1)]
  | (c, res, n) :: rest =>
      if c = r.code then (c, res, n + 1) :: rest
      else (c, res, n) :: insertCode r rest

/-- The per-segment decoding loop of `capture_single_window`: decode every
segment, tally identical codes (`codes_found`), and count decode failures. -/
def tallySegments (tol : ℚ) (segments : List (List ℕ)) :
    List (ℕ × DecodedCandidate × ℕ) × ℕ :=
  segments.foldl (fun acc seg =>
    match decode_segment tol seg with
    | some r => if 1000 < r.code then (insertCode r acc.1, acc.2) else (acc.1, acc.2 + 1)
    | none => (acc.1, acc.2 + 1)) ([], 0)

/-- The `sorted(codes_found.items(), key=count, reverse=True)` step: a stable
sort of the tally by descending count. -/
def sortCodes (l : List (ℕ × DecodedCandidate × ℕ)) : List (ℕ × DecodedCandidate × ℕ) :=
  l.mergeSort (fun a b => decide (b.2.2 ≤ a.2.2))

/-- Count of raw durations above the sync-gap threshold (`sync_gaps` in
`capture_single_window`). -/
def captureSyncGapCount (timings : List (ℕ × Bool)) : ℕ :=
  (timings.filter (fun t => decide (sync_gap_threshold < t.1))).length

/-- Segments found for one capture window. -/
def captureSegments (timings : List (ℕ × Bool)) : List (List ℕ) :=
  find_code_segments sync_gap_threshold timings

/-- The `codes_found` tally for one capture window. -/
def captureCodesFound (tol : ℚ) (timings : List (ℕ × Bool)) :
    List (ℕ × DecodedCandidate × ℕ) :=
  (tallySegments tol (captureSegments timings)).1

/-- The `decode_failures` counter for one capture window. -/
def captureDecodeFailures (tol : ℚ) (timings : List (ℕ × Bool)) : ℕ :=
  (tallySegments tol (captureSegments timings)).2

/-- The tally sorted by descending count (`sorted_codes`). -/
def captureSorted (tol : ℚ) (timings : List (ℕ × Bool)) :
    List (ℕ × DecodedCandidate × ℕ) :=
  sortCodes (captureCodesFound tol timings)

/-- The head of `sorted_codes`, i.e. `(best_code_value, best_code_data)`.  The
default value is never reached when `codes_found` is non-empty. -/
def captureBest (tol : ℚ) (timings : List (ℕ × Bool)) : ℕ × DecodedCandidate × ℕ :=
  (captureSorted tol timings).headD (0, default, 0)

/-- Total number of successfully decoded segments (`total_decoded`). -/
def captureTotalDecoded (tol : ℚ) (timings : List (ℕ × Bool)) : ℕ :=
  ((captureCodesFound tol timings).map (fun e => e.2.2)).sum

/-- The dominance ratio `confidence = best_count / total_decoded` (0 when
nothing decoded, as in the source's guarded division). -/
def captureConfidence (tol : ℚ) (timings : List (ℕ × Bool)) : ℚ :=
  if 0 < captureTotalDecoded tol timings then
    ((captureBest tol timings).2.2 : ℚ) / (captureTotalDecoded tol timings : ℚ)
  else 0

/-- The top-5 `competing_codes` diagnostic list with rounded percentages. -/
def captureCompeting (tol : ℚ) (timings : List (ℕ × Bool)) : List CompetingCode :=
  ((captureSorted tol timings).take 5).map (fun e =>
    { code := e.1, count := e.2.2,
      percentage := pyRound ((e.2.2 : ℚ) / (captureTotalDecoded tol timings : ℚ) * 100) 1 })

/-- The `NO_SIGNAL` error of check 1. -/
def noSignalError (timings : List (ℕ × Bool)) : RFDecodeError :=
  { error_type := "NO_SIGNAL",
    message := "No RF signal detected. Only " ++ toString timings.length ++
      " transitions captured.",
    details := [("transitions", .num timings.length), ("expected_min", .num 40),
      ("suggestion", .txt "Make sure the remote is transmitting and close to the receiver.")] }

/-- The `NO_SYNC_GAPS` error of check 2. -/
def noSyncGapsError (timings : List (ℕ × Bool)) (min_segments : ℕ) : RFDecodeError :=
  { error_type := "NO_SYNC_GAPS",
    message := "No valid RF code pattern detected. Found " ++
      toString (captureSyncGapCount timings) ++ " sync gaps, need at least " ++
      toString min_segments ++ ".",
    details := [("transitions", .num timings.length),
      ("sync_gaps_found", .num (captureSyncGapCount timings)),
      ("sync_gaps_needed", .num min_segments),
      ("suggestion", .txt "Hold the remote button continuously while capturing. The remote may not be compatible (needs PT2262/EV1527 protocol).")] }

/-- The `INSUFFICIENT_SEGMENTS` error of check 3. -/
def insufficientSegmentsError (timings : List (ℕ × Bool)) (min_segments : ℕ) : RFDecodeError :=
  { error_type := "INSUFFICIENT_SEGMENTS",
    message := "Not enough valid code segments. Found " ++
      toString (captureSegments timings).length ++ ", need at least " ++
      toString min_segments ++ ".",
    details := [("transitions", .num timings.length),
      ("sync_gaps", .num (captureSyncGapCount timings)),
      ("segments_found", .num (captureSegments timings).length),
      ("segments_needed", .num min_segments),
      ("suggestion", .txt "The signal may be too weak or corrupted. Try moving the remote closer.")] }

/-- The `DECODE_FAILED` error of check 4. -/
def decodeFailedError (tol : ℚ) (timings : List (ℕ × Bool)) : RFDecodeError :=
  { error_type := "DECODE_FAILED",
    message := "Could not decode any valid codes from " ++
      toString (captureSegments timings).length ++ " segments.",
    details := [("transitions", .num timings.length),
      ("sync_gaps", .num (captureSyncGapCount timings)),
      ("segments_found", .num (captureSegments timings).length),
      ("decode_failures", .num (captureDecodeFailures tol timings)),
      ("suggestion", .txt "The signal format may not be compatible. This decoder works with PT2262/EV1527 protocols.")] }

/-- The `AMBIGUOUS_SIGNAL` error of check 5. -/
def ambiguousError (tol : ℚ) (timings : List (ℕ × Bool)) (min_confidence : ℚ) : RFDecodeError :=
  { error_type := "AMBIGUOUS_SIGNAL",
    message := "Signal is ambiguous. Top code " ++ toString (captureBest tol timings).1 ++
      " only seen " ++ toString (captureBest tol timings).2.2 ++ "/" ++
      toString (captureTotalDecoded tol timings) ++ " times (" ++
      toString (roundHalfEven (captureConfidence tol timings * 100)) ++ "% confidence).",
    details := [("transitions", .num timings.length),
      ("segments_found", .num (captureSegments timings).length),
      ("codes_decoded", .num (captureTotalDecoded tol timings)),
      ("unique_codes", .num (captureCodesFound tol timings).length),
      ("confidence", .num (pyRound (captureConfidence tol timings) 2)),
      ("confidence_needed", .num min_confidence),
      ("competing_codes", .codes (captureCompeting tol timings)),
      ("suggestion", .txt "Multiple different codes detected. Hold only ONE button, or there may be RF interference.")] }

/-- The `WEAK_SIGNAL` error of check 6. -/
def weakSignalError (tol : ℚ) (timings : List (ℕ × Bool)) (min_segments : ℕ) : RFDecodeError :=
  { error_type := "WEAK_SIGNAL",
    message := "Code " ++ toString (captureBest tol timings).1 ++ " only detected " ++
      toString (captureBest tol timings).2.2 ++ " times, need at least " ++
      toString min_segments ++ ".",
    details := [("code", .num (captureBest tol timings).1),
      ("times_seen", .num (captureBest tol timings).2.2),
      ("times_needed", .num min_segments),
      ("confidence", .num (pyRound (captureConfidence tol timings) 2)),
      ("suggestion", .txt "The signal is too weak or intermittent. Hold the button firmly and try again.")] }

/-- The success dictionary built after all six checks pass: the primary
candidate's fields plus the capture statistics. -/
def successResult (tol : ℚ) (timings : List (ℕ × Bool)) : CaptureResult :=
  let best := captureBest tol timings
  { code := best.2.1.code, pulselength := best.2.1.pulselength,
    protocol := best.2.1.protocol, bits := best.2.1.bits,
    short_pulse := best.2.1.short_pulse, long_pulse := best.2.1.long_pulse,
    times_seen := best.2.2,
    segments_found := (captureSegments timings).length,
    total_codes_found := (captureCodesFound tol timings).length,
    confidence := pyRound (captureConfidence tol timings) 2,
    decode_success_rate :=
      pyRound ((captureTotalDecoded tol timings : ℚ) /
        ((captureSegments timings).length : ℚ) * 100) 1 }

/-- `CustomRFDecoder.capture_single_window` on an already-captured timing list:
the ordered six-gate validation pipeline, producing either the success
dictionary or the specific `RFDecodeError` of the first failing check. -/
def capture_single_window (tol : ℚ) (timings : List (ℕ × Bool))
    (min_confidence : ℚ) (min_segments : ℕ) : Except RFDecodeError CaptureResult :=
  if timings.length < 40 then
    .error (noSignalError timings)
  else if captureSyncGapCount timings < min_segments then
    .error (noSyncGapsError timings min_segments)
  else if (captureSegments timings).length < min_segments then
    .error (insufficientSegmentsError timings min_segments)
  else if captureCodesFound tol timings = [] then
    .error (decodeFailedError tol timings)
  else if captureConfidence tol timings < min_confidence then
    .error (ambiguousError tol timings min_confidence)
  else if (captureBest tol timings).2.2 < min_segments then
    .error (weakSignalError tol timings min_segments)
  else
    .ok (successResult tol timings)

/-- Modelled from the spec: the fixed order of the six validation gates of
§4.4 and the `ErrorKind` each produces on failure.  `none` means all six
gates pass. -/
def firstFailingGate (tol : ℚ) (timings : List (ℕ × Bool))
    (min_confidence : ℚ) (min_segments : ℕ) : Option String :=
  if timings.length < 40 then some "NO_SIGNAL"
  else if captureSyncGapCount timings < min_segments then some "NO_SYNC_GAPS"
  else if (captureSegments timings).length < min_segments then some "INSUFFICIENT_SEGMENTS"
  else if captureCodesFound tol timings = [] then some "DECODE_FAILED"
  else if captureConfidence tol timings < min_confidence then some "AMBIGUOUS_SIGNAL"
  else if (captureBest tol timings).2.2 < min_segments then some "WEAK_SIGNAL"
  else none

/-- The key numeric evidence each error kind must carry in its `details`. -/
def gateEvidence (tol : ℚ) (timings : List (ℕ × Bool)) : String → String × Detail
  | "NO_SIGNAL" => ("transitions", .num timings.length)
  | "NO_SYNC_GAPS" => ("sync_gaps_found", .num (captureSyncGapCount timings))
  | "INSUFFICIENT_SEGMENTS" => ("segments_found", .num (captureSegments timings).length)
  | "DECODE_FAILED" => ("decode_failures", .num (captureDecodeFailures tol timings))
  | "AMBIGUOUS_SIGNAL" => ("confidence", .num (pyRound (captureConfidence tol timings) 2))
  | _ => ("times_seen", .num (captureBest tol timings).2.2)

/-- Projection of the error type of a capture outcome. -/
def errType : Except RFDecodeError CaptureResult → Option String
  | .error e => some e.error_type
  | .ok _ => none

/-- Projection of the error details of a capture outcome. -/
def errDetails : Except RFDecodeError CaptureResult → List (String × Detail)
  | .error e => e.details
  | .ok _ => []

/-- Projection of the success payload of a capture outcome. -/
def okResult : Except RFDecodeError CaptureResult → Option CaptureResult
  | .error _ => none
  | .ok r => some r

/-- Modelled from the spec: most-significant-bit-first binary expansion of a
code to a fixed width, as used by the synthetic pulse-train generator of §8
(the generator itself is not part of the decoder source). -/
def natBits : ℕ → ℕ → List Bool
  | 0, _ => []
  | k + 1, n => natBits k (n / 2) ++ [n % 2 == 1]

/-- Modelled from the spec: pulse-pair shape of one bit (glossary: short-then-
long encodes 0, long-then-short encodes 1), with configurable pulse widths. -/
def encodeBit (short_us long_us : ℕ) (b : Bool) : List ℕ :=
  if b then [long_us, short_us] else [short_us, long_us]

/-- Modelled from the spec: one synthetic 24-bit frame of a code, using the
stated nominal pulse widths (short 180µs, long 550µs). -/
def encodeFrame (code : ℕ) : List ℕ :=
  (natBits 24 code).flatMap (encodeBit 180 550)

/-- Modelled from the spec: a pulse stream of data frames, each followed by
one sync gap (§8 segmentation-correctness stream shape).  Levels alternate
data-high/gap-low; the decoder ignores them. -/
def streamOf (frames : List (List ℕ)) (gap : ℕ) : List (ℕ × Bool) :=
  (frames.map (fun f => f.map (fun d => (d, true)) ++ [(gap, false)])).flatten

/-- Modelled from the spec: the §8 round-trip generator, repeating one frame
`n` times separated by the stated ~5700µs sync gaps. -/
def encodeStream (code n : ℕ) : List (ℕ × Bool) :=
  streamOf (List.replicate n (encodeFrame code)) 5700

/-- Uniform perturbation of a segment: shift every short-band duration by
`dshort` and every long-band duration by `dlong` microseconds (durations are
integers in the source, so integer shifts model the spec's `±ε` boundary). -/
def perturbDurations (dshort dlong : ℕ) (ds : List ℕ) : List ℕ :=
  ds.map (fun d => if shortBand d then d + dshort else if longBand d then d + dlong else d)

/-- First test code used in concrete scenarios (24 alternating bits). -/
def codeA : ℕ := 11184810

/-- Second test code used in concrete scenarios (24 alternating bits). -/
def codeB : ℕ := 5592405

/-- The decoded candidate for a clean nominal frame of `codeA`. -/
def candA : DecodedCandidate :=
  { code := codeA, pulselength := 180, protocol := 1, bits := 24,
    short_pulse := 180, long_pulse := 550 }

/-- The decoded candidate for a clean nominal frame of `codeB`. -/
def candB : DecodedCandidate :=
  { code := codeB, pulselength := 180, protocol := 1, bits := 24,
    short_pulse := 180, long_pulse := 550 }

/-- The confidence-gate scenario stream: ten frames, six of `codeA` then four
of `codeB`, each followed by a sync gap. -/
def streamC6 : List (ℕ × Bool) :=
  streamOf (List.replicate 6 (encodeFrame codeA) ++ List.replicate 4 (encodeFrame codeB)) 5700

/-- A clean three-frame capture of `codeA`, used for success-path scenarios. -/
def streamC7 : List (ℕ × Bool) :=
  streamOf (List.replicate 3 (encodeFrame codeA)) 5700

/-- A GPIO side effect observable at the pin. -/
inductive GpioEvent where
  | setupPin (pin : ℕ)
  | cleanupPin (pin : ℕ)
deriving DecidableEq

/-- The decoder's mutable state: its pin number and the `_setup_done` flag. -/
structure DecoderState where
  gpio_pin : ℕ
  setup_done : Bool
deriving DecidableEq

/-- `CustomRFDecoder.setup`: configure the pin as input once, guarded by
`_setup_done`. -/
def setup (st : DecoderState) : DecoderState × List GpioEvent :=
  if st.setup_done then (st, [])
  else ({ st with setup_done := true }, [GpioEvent.setupPin st.gpio_pin])

/-- `CustomRFDecoder.cleanup`: release the pin and clear `_setup_done`, a
no-op when not set up. -/
def cleanup (st : DecoderState) : DecoderState × List GpioEvent :=
  if st.setup_done then ({ st with setup_done := false }, [GpioEvent.cleanupPin st.gpio_pin])
  else (st, [])

/-- `capture_single_window` with its GPIO effects made explicit: the method
calls `self.setup()` and then `capture_raw_timings` (which calls `setup`
again); every return or raise then happens with no further GPIO call.  The
captured timings are the abstracted input. -/
def capture_single_window_effects (tol : ℚ) (st : DecoderState)
    (timings : List (ℕ × Bool)) (min_confidence : ℚ) (min_segments : ℕ) :
    Except RFDecodeError CaptureResult × DecoderState × List GpioEvent :=
  let s1 := setup st
  let s2 := setup s1.1
  (capture_single_window tol timings min_confidence min_segments, s2.1, s1.2 ++ s2.2)

/-- Fuelled version of the bit-extraction while-loop of `decode_segment`,
walking an explicit index `i` exactly as the source does and spending one unit
of fuel per loop-guard test; `none` means the fuel ran out first. -/
def bitWalkFuel (tol short_avg long_avg : ℚ) (ds : List ℕ) : ℕ → ℕ → Option (List Bool)
  | _, 0 => none
  | i, fuel + 1 =>
      if h : i + 1 < ds.length then
        let t1 := ds.get ⟨i, Nat.lt_of_succ_lt h⟩
        let t2 := ds.get ⟨i + 1, h⟩
        if pulseMatches short_avg tol t1 && pulseMatches long_avg tol t2 then
          (bitWalkFuel tol short_avg long_avg ds (i + 2) fuel).map (fun bs => false :: bs)
        else if pulseMatches long_avg tol t1 && pulseMatches short_avg tol t2 then
          (bitWalkFuel tol short_avg long_avg ds (i + 2) fuel).map (fun bs => true :: bs)
        else bitWalkFuel tol short_avg long_avg ds (i + 1) fuel
      else some []

/-! ### Lemmas about the segmenter -/

theorem segmentsAux_data (thr : ℕ) (ps : List (ℕ × Bool)) :
    ∀ (l : List (ℕ × Bool)) (cur : List ℕ), (∀ p ∈ ps, p.1 ≤ thr) →
      segmentsAux thr (ps ++ l) cur = segmentsAux thr l (cur ++ ps.map Prod.fst) := by
  induction ps with
  | nil => intro l cur _; simp
  | cons p ps ih =>
      intro l cur hp
      obtain ⟨d, lv⟩ := p
      have hd : ¬ thr < d := by
        have h := hp (d, lv) (List.mem_cons_self _ _)
        simp at h
        omega
      simp only [List.cons_append, segmentsAux, List.append_eq]
      rw [if_neg hd, ih l (cur ++ [d]) (fun q hq => hp q (List.mem_cons_of_mem _ hq))]
      simp

theorem segmentsAux_valid (thr : ℕ) (l : List (ℕ × Bool)) :
    ∀ (cur : List ℕ), (∀ d ∈ cur, d ≤ thr) →
      ∀ seg ∈ segmentsAux thr l cur, 40 ≤ seg.length ∧ ∀ d ∈ seg, d ≤ thr := by
  induction l with
  | nil =>
      intro cur hcur seg hseg
      simp only [segmentsAux] at hseg
      by_cases h40 : 40 ≤ cur.length
      · rw [if_pos h40] at hseg
        simp at hseg
        subst hseg
        exact ⟨h40, hcur⟩
      · rw [if_neg h40] at hseg
        simp at hseg
  | cons p l ih =>
      intro cur hcur seg hseg
      obtain ⟨d, lv⟩ := p
      simp only [segmentsAux] at hseg
      by_cases hd : thr < d
      · rw [if_pos hd] at hseg
        rcases List.mem_append.1 hseg with h | h
        · by_cases h40 : 40 ≤ cur.length
          · rw [if_pos h40] at h
            simp at h
            subst h
            exact ⟨h40, hcur⟩
          · rw [if_neg h40] at h
            simp at h
        · exact ih [] (by simp) seg h
      · rw [if_neg hd] at hseg
        refine ih (cur ++ [d]) ?_ seg hseg
        intro x hx
        rcases List.mem_append.1 hx with h | h
        · exact hcur x h
        · simp at h
          omega

theorem find_streamOf (thr : ℕ) (frames : List (List ℕ)) (gap : ℕ)
    (hframes : ∀ f ∈ frames, 40 ≤ f.length ∧ ∀ d ∈ f, d ≤ thr) (hgap : thr < gap) :
    find_code_segments thr (streamOf frames gap) = frames := by
  unfold find_code_segments streamOf
  induction frames with
  | nil => simp [segmentsAux]
  | cons f fs ih =>
      have h1 := hframes f (List.mem_cons_self _ _)
      rw [List.map_cons, List.flatten_cons, List.append_assoc, List.singleton_append]
      rw [segmentsAux_data thr (f.map (fun d => (d, true))) _ []
        (by
          intro p hp
          simp at hp
          obtain ⟨a, ha, rfl⟩ := hp
          simpa using h1.2 a ha)]
      have hmap : (f.map (fun d => (d, true))).map Prod.fst = f := by
        have hcomp : (Prod.fst ∘ fun d : ℕ => (d, true)) = id := rfl
        rw [List.map_map, hcomp, List.map_id]
      simp only [List.nil_append, hmap]
      simp only [segmentsAux]
      rw [if_pos hgap, if_pos h1.1, ih (fun g hg => hframes g (List.mem_cons_of_mem _ hg))]
      simp

/-- C3: the segmenter accumulates durations, closes the current segment at
every over-threshold gap keeping it only when at least 40 samples long,
discards the gap duration itself, closes the final segment the same way, and
(being a total function) never raises; a stream of exactly `N` over-threshold
gaps separating `N` valid frames yields exactly those `N` segments. -/
theorem segmenter_correct (thr : ℕ) (timings : List (ℕ × Bool)) (frames : List (List ℕ))
    (gap : ℕ) (hframes : ∀ f ∈ frames, 40 ≤ f.length ∧ ∀ d ∈ f, d ≤ thr)
    (hgap : thr < gap) :
    (∀ seg ∈ find_code_segments thr timings, 40 ≤ seg.length ∧ ∀ d ∈ seg, d ≤ thr) ∧
    find_code_segments thr (streamOf frames gap) = frames ∧
    (find_code_segments thr (streamOf frames gap)).length = frames.length := by
  refine ⟨fun seg h => segmentsAux_valid thr timings [] (by simp) seg h,
    find_streamOf thr frames gap hframes hgap, ?_⟩
  rw [find_streamOf thr frames gap hframes hgap]

/-- Witness for C3 at a concrete two-frame stream. -/
theorem segmenter_correct_witness :
    find_code_segments 4000 (streamOf [List.replicate 40 200, List.replicate 40 300] 5000) =
      [List.replicate 40 200, List.replicate 40 300] ∧
    (find_code_segments 4000
      (streamOf [List.replicate 40 200, List.replicate 40 300] 5000)).length = 2 ∧
    40 ≤ (List.replicate 40 (200 : ℕ)).length ∧ (200 : ℕ) ≤ 4000 := by
  have h1 : ∀ f ∈ [List.replicate 40 (200 : ℕ), List.replicate 40 300],
      40 ≤ f.length ∧ ∀ d ∈ f, d ≤ 4000 := by decide
  have h := segmenter_correct 4000
    (streamOf [List.replicate 40 200, List.replicate 40 300] 5000) _ 5000 h1 (by decide)
  have hmem : List.replicate 40 (200 : ℕ) ∈
      find_code_segments 4000 (streamOf [List.replicate 40 200, List.replicate 40 300] 5000) := by
    rw [h.2.1]
    simp
  have hseg := h.1 _ hmem
  exact ⟨h.2.1, by simpa using h.2.2, hseg.1, hseg.2 200 (by simp)⟩

/-! ### Lemmas about synthetic frames and `decode_segment` -/

theorem encodeFrame_eq (code : ℕ) :
    encodeFrame code = (natBits 24 code).flatMap (encodeBit 180 550) := rfl

theorem frame_filter_short (s l : ℕ) (hs : shortBand s = true) (hl : shortBand l = false) :
    ∀ bits : List Bool,
      (bits.flatMap (encodeBit s l)).filter shortBand = List.replicate bits.length s := by
  intro bits
  induction bits with
  | nil => rfl
  | cons b bs ih =>
      rw [List.flatMap_cons]
      generalize bs.flatMap (encodeBit s l) = X at ih ⊢
      cases b <;>
        simp [encodeBit, List.filter_append, List.filter, hs, hl, ih, List.replicate_succ]

theorem frame_filter_long (s l : ℕ) (hs : longBand s = false) (hl : longBand l = true) :
    ∀ bits : List Bool,
      (bits.flatMap (encodeBit s l)).filter longBand = List.replicate bits.length l := by
  intro bits
  induction bits with
  | nil => rfl
  | cons b bs ih =>
      rw [List.flatMap_cons]
      generalize bs.flatMap (encodeBit s l) = X at ih ⊢
      cases b <;>
        simp [encodeBit, List.filter_append, List.filter, hs, hl, ih, List.replicate_succ]

theorem frame_length (s l : ℕ) (bits : List Bool) :
    (bits.flatMap (encodeBit s l)).length = 2 * bits.length := by
  induction bits with
  | nil => rfl
  | cons b bs ih => cases b <;> simp [List.flatMap_cons, encodeBit, ih] <;> omega

theorem frame_mem (s l d : ℕ) (bits : List Bool) (hd : d ∈ bits.flatMap (encodeBit s l)) :
    d = s ∨ d = l := by
  rw [List.mem_flatMap] at hd
  obtain ⟨b, _, hb⟩ := hd
  cases b <;> simp [encodeBit] at hb <;> tauto

theorem listAvg_replicate (k a : ℕ) (hk : k ≠ 0) :
    listAvg (List.replicate k a) = (a : ℚ) := by
  have hknz : (k : ℚ) ≠ 0 := by exact_mod_cast hk
  unfold listAvg
  rw [List.map_replicate, List.sum_replicate, List.length_replicate, nsmul_eq_mul,
    mul_div_cancel_left₀ _ hknz]

theorem extractBits_frame (tol : ℚ) (s l : ℕ)
    (mss : pulseMatches (s : ℚ) tol s = true) (mll : pulseMatches (l : ℚ) tol l = true)
    (msl : pulseMatches (s : ℚ) tol l = false) (mls : pulseMatches (l : ℚ) tol s = false) :
    ∀ bits : List Bool,
      extractBits tol (s : ℚ) (l : ℚ) (bits.flatMap (encodeBit s l)) = bits := by
  intro bits
  induction bits with
  | nil => rfl
  | cons b bs ih =>
      rw [List.flatMap_cons]
      generalize bs.flatMap (encodeBit s l) = X at ih ⊢
      cases b <;> simp [encodeBit, extractBits, mss, mll, msl, mls, ih]

theorem packBits_append_bit (l : List Bool) (b : Bool) :
    packBits (l ++ [b]) = 2 * packBits l + (if b then 1 else 0) := by
  unfold packBits
  rw [List.foldl_append]
  rfl

theorem natBits_length (k : ℕ) : ∀ n, (natBits k n).length = k := by
  induction k with
  | zero => intro n; rfl
  | succ k ih => intro n; simp [natBits, ih]

theorem mod_two_pow_succ (n k : ℕ) : n % 2 ^ (k + 1) = 2 * (n / 2 % 2 ^ k) + n % 2 := by
  have h : 2 ^ (k + 1) = 2 * 2 ^ k := by rw [pow_succ]; ring
  rw [h, Nat.mod_mul]
  omega

theorem packBits_natBits (k : ℕ) : ∀ n, packBits (natBits k n) = n % 2 ^ k := by
  induction k with
  | zero => intro n; simp [natBits, packBits, Nat.mod_one]
  | succ k ih =>
      intro n
      rw [show natBits (k + 1) n = natBits k (n / 2) ++ [n % 2 == 1] from rfl]
      rw [packBits_append_bit, ih, mod_two_pow_succ]
      have h2 : n % 2 = 0 ∨ n % 2 = 1 := Nat.mod_two_eq_zero_or_one n
      rcases h2 with h | h <;> simp [h]

theorem packBits_lt_aux (l : List Bool) :
    ∀ a : ℕ, l.foldl (fun c b => 2 * c + (if b then 1 else 0)) a < (a + 1) * 2 ^ l.length := by
  induction l with
  | nil => intro a; simp
  | cons b bs ih =>
      intro a
      have h1 := ih (2 * a + (if b then 1 else 0))
      have h2 : (2 * a + (if b then 1 else 0) + 1) * 2 ^ bs.length ≤ (a + 1) * 2 ^ (bs.length + 1) := by
        have hb : (if b then 1 else 0) ≤ 1 := by cases b <;> simp
        have : 2 * a + (if b then 1 else 0) + 1 ≤ 2 * (a + 1) := by omega
        calc (2 * a + (if b then 1 else 0) + 1) * 2 ^ bs.length
            ≤ 2 * (a + 1) * 2 ^ bs.length := Nat.mul_le_mul_right _ this
          _ = (a + 1) * 2 ^ (bs.length + 1) := by rw [pow_succ]; ring
      simp only [List.foldl_cons, List.length_cons]
      exact lt_of_lt_of_le h1 h2

theorem packBits_lt (l : List Bool) : packBits l < 2 ^ l.length := by
  have h := packBits_lt_aux l 0
  simpa [packBits] using h

/-- Decoding a clean synthetic frame: if the two pulse widths sit inside their
bands, match only their own band average, and the packed code clears the noise
floor, `decode_segment` recovers exactly the encoded bits. -/
theorem decode_frameWith (tol : ℚ) (s l : ℕ) (bits : List Bool) (hlen : bits.length = 24)
    (hsb : shortBand s = true) (hlb : longBand l = true)
    (hsnb : longBand s = false) (hlnb : shortBand l = false)
    (mss : pulseMatches (s : ℚ) tol s = true) (mll : pulseMatches (l : ℚ) tol l = true)
    (msl : pulseMatches (s : ℚ) tol l = false) (mls : pulseMatches (l : ℚ) tol s = false)
    (hcode : 1000 < packBits bits) :
    decode_segment tol (bits.flatMap (encodeBit s l)) =
      some { code := packBits bits, pulselength := (s : ℤ), protocol := 1, bits := 24,
             short_pulse := (s : ℤ), long_pulse := (l : ℤ) } := by
  have hflen : (bits.flatMap (encodeBit s l)).length = 48 := by
    rw [frame_length, hlen]
  have hfs : (bits.flatMap (encodeBit s l)).filter shortBand = List.replicate 24 s := by
    rw [frame_filter_short s l hsb hlnb, hlen]
  have hfl : (bits.flatMap (encodeBit s l)).filter longBand = List.replicate 24 l := by
    rw [frame_filter_long s l hsnb hlb, hlen]
  simp only [decode_segment]
  rw [hflen, hfs, hfl, listAvg_replicate 24 s (by omega), listAvg_replicate 24 l (by omega),
    extractBits_frame tol s l mss mll msl mls bits, hlen]
  have htake : bits.take 24 = bits := by
    rw [← hlen]
    exact List.take_length bits
  rw [htake]
  simp only [List.length_replicate]
  norm_num [hcode, Int.floor_natCast]

/-- C2: for every 24-bit code above the noise floor, a synthetic pulse train
that repeats its frame at least three times separated by sync gaps passes
through the segmenter and per-segment decoder back to exactly that code. -/
theorem round_trip (code n : ℕ) (h1 : 1000 < code) (h2 : code < 2 ^ 24) (h3 : 3 ≤ n) :
    (find_code_segments sync_gap_threshold (encodeStream code n)).length = n ∧
    ∀ seg ∈ find_code_segments sync_gap_threshold (encodeStream code n),
      (decode_segment default_tolerance seg).map (fun r => r.code) = some code := by
  have hpack : packBits (natBits 24 code) = code := by
    rw [packBits_natBits, Nat.mod_eq_of_lt h2]
  have hframe : ∀ f ∈ List.replicate n (encodeFrame code),
      40 ≤ f.length ∧ ∀ d ∈ f, d ≤ sync_gap_threshold := by
    intro f hf
    rw [List.eq_of_mem_replicate hf]
    constructor
    · rw [encodeFrame_eq, frame_length, natBits_length]
      norm_num
    · intro d hd
      rcases frame_mem 180 550 d (natBits 24 code) (by rwa [encodeFrame_eq] at hd) with h | h <;>
        simp [h, sync_gap_threshold]
  have hseg : find_code_segments sync_gap_threshold (encodeStream code n) =
      List.replicate n (encodeFrame code) := by
    unfold encodeStream
    exact find_streamOf _ _ _ hframe (by norm_num [sync_gap_threshold])
  refine ⟨by rw [hseg, List.length_replicate], ?_⟩
  intro seg hs
  rw [hseg] at hs
  rw [List.eq_of_mem_replicate hs, encodeFrame_eq]
  rw [decode_frameWith default_tolerance 180 550 (natBits 24 code) (natBits_length 24 code)
    rfl rfl rfl rfl
    (by with_unfolding_all rfl) (by with_unfolding_all rfl)
    (by with_unfolding_all rfl) (by with_unfolding_all rfl)
    (by rw [hpack]; exact h1)]
  simp [hpack]

/-- Witness for C2 at a concrete code and repetition count. -/
theorem round_trip_witness :
    (find_code_segments sync_gap_threshold (encodeStream 1193046 3)).length = 3 ∧
    (decode_segment default_tolerance (encodeFrame 1193046)).map
      (fun r => r.code) = some 1193046 := by
  have h := round_trip 1193046 3 (by norm_num) (by norm_num) (by norm_num)
  refine ⟨h.1, h.2 (encodeFrame 1193046) ?_⟩
  have hseg : find_code_segments sync_gap_threshold (encodeStream 1193046 3) =
      List.replicate 3 (encodeFrame 1193046) := by
    with_unfolding_all rfl
  rw [hseg]
  simp

/-- C4: given at least 40 durations, `decode_segment` yields a candidate
exactly when both bands have at least 10 samples, the extracted bit count lies
in `[20, 28]`, and the packed 24-bit code exceeds 1000; consequently every
candidate's code lies strictly between 1000 and `2 ^ 24`. -/
theorem decode_segment_characterization (tol : ℚ) (ds : List ℕ) (h : 40 ≤ ds.length) :
    ((decode_segment tol ds).isSome ↔
      (10 ≤ (ds.filter shortBand).length ∧ 10 ≤ (ds.filter longBand).length ∧
       20 ≤ (extractBits tol (listAvg (ds.filter shortBand))
          (listAvg (ds.filter longBand)) ds).length ∧
       (extractBits tol (listAvg (ds.filter shortBand))
          (listAvg (ds.filter longBand)) ds).length ≤ 28 ∧
       1000 < packBits ((extractBits tol (listAvg (ds.filter shortBand))
          (listAvg (ds.filter longBand)) ds).take 24))) ∧
    ∀ r, decode_segment tol ds = some r → 1000 < r.code ∧ r.code < 2 ^ 24 := by
  constructor
  · simp only [decode_segment]
    rw [if_neg (show ¬ ds.length < 40 by omega)]
    by_cases h1 : (ds.filter shortBand).length < 10 ∨ (ds.filter longBand).length < 10
    · rw [if_pos h1]
      simp only [Option.isSome_none, Bool.false_eq_true, false_iff]
      intro hc
      omega
    · rw [if_neg h1]
      push_neg at h1
      by_cases h2 : 20 ≤ (extractBits tol (listAvg (ds.filter shortBand))
          (listAvg (ds.filter longBand)) ds).length ∧
          (extractBits tol (listAvg (ds.filter shortBand))
            (listAvg (ds.filter longBand)) ds).length ≤ 28
      · rw [if_pos h2]
        by_cases h3 : 1000 < packBits ((extractBits tol (listAvg (ds.filter shortBand))
            (listAvg (ds.filter longBand)) ds).take 24)
        · rw [if_pos h3]
          simp only [Option.isSome_some, true_iff]
          exact ⟨h1.1, h1.2, h2.1, h2.2, h3⟩
        · rw [if_neg h3]
          simp only [Option.isSome_none, Bool.false_eq_true, false_iff]
          intro hc
          exact h3 hc.2.2.2.2
      · rw [if_neg h2]
        simp only [Option.isSome_none, Bool.false_eq_true, false_iff]
        intro hc
        exact h2 ⟨hc.2.2.1, hc.2.2.2.1⟩
  · intro r hr
    simp only [decode_segment] at hr
    rw [if_neg (show ¬ ds.length < 40 by omega)] at hr
    by_cases h1 : (ds.filter shortBand).length < 10 ∨ (ds.filter longBand).length < 10
    · rw [if_pos h1] at hr
      simp at hr
    · rw [if_neg h1] at hr
      by_cases h2 : 20 ≤ (extractBits tol (listAvg (ds.filter shortBand))
          (listAvg (ds.filter longBand)) ds).length ∧
          (extractBits tol (listAvg (ds.filter shortBand))
            (listAvg (ds.filter longBand)) ds).length ≤ 28
      · rw [if_pos h2] at hr
        by_cases h3 : 1000 < packBits ((extractBits tol (listAvg (ds.filter shortBand))
            (listAvg (ds.filter longBand)) ds).take 24)
        · rw [if_pos h3] at hr
          rw [Option.some_inj] at hr
          subst hr
          refine ⟨h3, ?_⟩
          have hl : ((extractBits tol (listAvg (ds.filter shortBand))
              (listAvg (ds.filter longBand)) ds).take 24).length ≤ 24 := by
            rw [List.length_take]
            exact min_le_left _ _
          have hb := packBits_lt ((extractBits tol (listAvg (ds.filter shortBand))
              (listAvg (ds.filter longBand)) ds).take 24)
          exact lt_of_lt_of_le hb (Nat.pow_le_pow_right (by norm_num) hl)
        · rw [if_neg h3] at hr
          simp at hr
      · rw [if_neg h2] at hr
        simp at hr

/-- Witness for C4 at a concrete clean frame. -/
theorem decode_segment_characterization_witness :
    ((decode_segment default_tolerance (encodeFrame 1193046)).isSome ↔
      (10 ≤ ((encodeFrame 1193046).filter shortBand).length ∧
       10 ≤ ((encodeFrame 1193046).filter longBand).length ∧
       20 ≤ (extractBits default_tolerance (listAvg ((encodeFrame 1193046).filter shortBand))
          (listAvg ((encodeFrame 1193046).filter longBand)) (encodeFrame 1193046)).length ∧
       (extractBits default_tolerance (listAvg ((encodeFrame 1193046).filter shortBand))
          (listAvg ((encodeFrame 1193046).filter longBand)) (encodeFrame 1193046)).length ≤ 28 ∧
       1000 < packBits ((extractBits default_tolerance
          (listAvg ((encodeFrame 1193046).filter shortBand))
          (listAvg ((encodeFrame 1193046).filter longBand)) (encodeFrame 1193046)).take 24))) ∧
    1000 < (1193046 : ℕ) ∧ (1193046 : ℕ) < 2 ^ 24 := by
  have h := decode_segment_characterization default_tolerance (encodeFrame 1193046) (by decide)
  have hdec : decode_segment default_tolerance (encodeFrame 1193046) =
      some { code := 1193046, pulselength := 180, protocol := 1, bits := 24,
             short_pulse := 180, long_pulse := 550 } := by
    with_unfolding_all rfl
  have h2 := h.2 _ hdec
  exact ⟨h.1, h2.1, h2.2⟩

/-- C5: at every position of the bit-extraction walk, the duration pair is
classified against the band averages with the `|t − avg| < avg·tol` test;
a short/long pair emits bit 0 advancing by two, a long/short pair emits bit 1
advancing by two, and any other pair emits nothing and advances by one. -/
theorem bit_extraction_step (tol sa la : ℚ) (ds : List ℕ) (i t1 t2 : ℕ)
    (h1 : ds[i]? = some t1) (h2 : ds[i + 1]? = some t2) :
    extractBits tol sa la (ds.drop i) =
      if pulseMatches sa tol t1 && pulseMatches la tol t2 then
        false :: extractBits tol sa la (ds.drop (i + 2))
      else if pulseMatches la tol t1 && pulseMatches sa tol t2 then
        true :: extractBits tol sa la (ds.drop (i + 2))
      else extractBits tol sa la (ds.drop (i + 1)) := by
  obtain ⟨hl1, he1⟩ := List.getElem?_eq_some.1 h1
  obtain ⟨hl2, he2⟩ := List.getElem?_eq_some.1 h2
  have hd1 : ds.drop i = t1 :: ds.drop (i + 1) := by
    rw [List.drop_eq_getElem_cons (by omega : i < ds.length)]
    rw [he1]
  have hd2 : ds.drop (i + 1) = t2 :: ds.drop (i + 2) := by
    rw [List.drop_eq_getElem_cons hl2]
    rw [he2]
  rw [hd1, hd2]
  simp only [extractBits]

/-- Witness for C5 at a concrete resynchronization position. -/
theorem bit_extraction_step_witness :
    extractBits default_tolerance 180 550 ([700, 180, 550].drop 0) =
      if pulseMatches 180 default_tolerance 700 && pulseMatches 550 default_tolerance 180 then
        false :: extractBits default_tolerance 180 550 ([700, 180, 550].drop 2)
      else if pulseMatches 550 default_tolerance 700 && pulseMatches 180 default_tolerance 180 then
        true :: extractBits default_tolerance 180 550 ([700, 180, 550].drop 2)
      else extractBits default_tolerance 180 550 ([700, 180, 550].drop 1) :=
  bit_extraction_step default_tolerance 180 550 [700, 180, 550] 0 700 180 rfl rfl

theorem perturb_encodeFrame (ds dl : ℕ) (bits : List Bool) :
    perturbDurations ds dl (bits.flatMap (encodeBit 180 550)) =
      bits.flatMap (encodeBit (180 + ds) (550 + dl)) := by
  induction bits with
  | nil => rfl
  | cons b bs ih =>
      rw [List.flatMap_cons, List.flatMap_cons]
      unfold perturbDurations at ih ⊢
      rw [List.map_append, ih]
      congr 1
      cases b <;> rfl

/-- Counterexample to C8: shifting every pulse of a decodable frame by
`tolerance × band_mean + ε` (with `ε = 1`µs: shorts by 73, longs by 221) does
not make `decode_segment` fail — the band averages are re-estimated from the
perturbed segment, so it still decodes to the same code. -/
theorem tolerance_boundary_counterexample :
    (73 : ℚ) = default_tolerance * 180 + 1 ∧ (221 : ℚ) = default_tolerance * 550 + 1 ∧
    (decode_segment default_tolerance (perturbDurations 73 221 (encodeFrame 1193046))).map
      (fun r => r.code) = some 1193046 := by
  refine ⟨by norm_num [default_tolerance], by norm_num [default_tolerance], ?_⟩
  with_unfolding_all rfl

/-- Amended C8: shifting every short pulse by `tolerance × short_mean ± 1`µs
and every long pulse by `tolerance × long_mean ± 1`µs leaves the segment
decoding to the same code (and never crashes), because the decoder
re-estimates both band averages from the perturbed segment itself. -/
theorem tolerance_boundary_amended (code : ℕ) (h1 : 1000 < code) (h2 : code < 2 ^ 24) :
    (decode_segment default_tolerance (perturbDurations 71 219 (encodeFrame code))).map
      (fun r => r.code) = some code ∧
    (decode_segment default_tolerance (perturbDurations 73 221 (encodeFrame code))).map
      (fun r => r.code) = some code := by
  have hpack : packBits (natBits 24 code) = code := by
    rw [packBits_natBits, Nat.mod_eq_of_lt h2]
  constructor
  · rw [encodeFrame_eq, perturb_encodeFrame]
    rw [show (180 + 71 : ℕ) = 251 by norm_num, show (550 + 219 : ℕ) = 769 by norm_num]
    rw [decode_frameWith default_tolerance 251 769 (natBits 24 code) (natBits_length 24 code)
      rfl rfl rfl rfl
      (by with_unfolding_all rfl) (by with_unfolding_all rfl)
      (by with_unfolding_all rfl) (by with_unfolding_all rfl)
      (by rw [hpack]; exact h1)]
    simp [hpack]
  · rw [encodeFrame_eq, perturb_encodeFrame]
    rw [show (180 + 73 : ℕ) = 253 by norm_num, show (550 + 221 : ℕ) = 771 by norm_num]
    rw [decode_frameWith default_tolerance 253 771 (natBits 24 code) (natBits_length 24 code)
      rfl rfl rfl rfl
      (by with_unfolding_all rfl) (by with_unfolding_all rfl)
      (by with_unfolding_all rfl) (by with_unfolding_all rfl)
      (by rw [hpack]; exact h1)]
    simp [hpack]

/-- Witness for the amended C8 at a concrete code. -/
theorem tolerance_boundary_amended_witness :
    (decode_segment default_tolerance (perturbDurations 71 219 (encodeFrame 2025001))).map
      (fun r => r.code) = some 2025001 ∧
    (decode_segment default_tolerance (perturbDurations 73 221 (encodeFrame 2025001))).map
      (fun r => r.code) = some 2025001 :=
  tolerance_boundary_amended 2025001 (by norm_num) (by norm_num)

theorem extractBits_short_input (tol sa la : ℚ) (l : List ℕ) (h : l.length ≤ 1) :
    extractBits tol sa la l = [] := by
  cases l with
  | nil => rfl
  | cons x xs =>
      cases xs with
      | nil => rfl
      | cons y ys => simp at h

theorem bitWalkFuel_spec (tol sa la : ℚ) (ds : List ℕ) :
    ∀ (fuel i : ℕ), ds.length - i < fuel →
      bitWalkFuel tol sa la ds i fuel = some (extractBits tol sa la (ds.drop i)) := by
  intro fuel
  induction fuel with
  | zero => intro i h; omega
  | succ fuel ih =>
      intro i h
      by_cases hi : i + 1 < ds.length
      · have hd1 : ds.drop i = ds[i] :: ds.drop (i + 1) :=
          List.drop_eq_getElem_cons (by omega)
        have hd2 : ds.drop (i + 1) = ds[i + 1] :: ds.drop (i + 2) :=
          List.drop_eq_getElem_cons hi
        simp only [bitWalkFuel, dif_pos hi, List.get_eq_getElem]
        rw [hd1, hd2]
        simp only [extractBits]
        by_cases hc1 : (pulseMatches sa tol ds[i] && pulseMatches la tol ds[i + 1]) = true
        · simp [hc1, ih (i + 2) (by omega)]
        · by_cases hc2 : (pulseMatches la tol ds[i] && pulseMatches sa tol ds[i + 1]) = true
          · simp [hc1, hc2, ih (i + 2) (by omega)]
          · have hrec := ih (i + 1) (by omega)
            rw [hd2] at hrec
            simp [hc1, hc2, hrec]
      · simp only [bitWalkFuel, dif_neg hi]
        rw [extractBits_short_input tol sa la _ (by simp [List.length_drop]; omega)]

/-- C10: the resynchronizing bit-extraction walk terminates on every finite
duration list — each loop step advances the index by one or two, so fuel equal
to the list length always suffices, and the fuelled walk computes the total
function `extractBits`. -/
theorem bit_extraction_terminates (tol sa la : ℚ) (ds : List ℕ) (fuel : ℕ)
    (h : ds.length < fuel) :
    bitWalkFuel tol sa la ds 0 fuel = some (extractBits tol sa la ds) := by
  have hspec := bitWalkFuel_spec tol sa la ds fuel 0 (by omega)
  simpa using hspec

/-- Witness for C10 on a concrete duration list, including positions where no
pair matches. -/
theorem bit_extraction_terminates_witness :
    bitWalkFuel default_tolerance 180 550 [180, 550, 550, 180, 100] 0 6 =
      some (extractBits default_tolerance 180 550 [180, 550, 550, 180, 100]) :=
  bit_extraction_terminates default_tolerance 180 550 [180, 550, 550, 180, 100] 6 (by norm_num)

/-! ### Lemmas about the tally sort and the capture pipeline -/

theorem sortCodes_perm (l : List (ℕ × DecodedCandidate × ℕ)) : (sortCodes l).Perm l :=
  List.mergeSort_perm l _

theorem sortCodes_ne_nil (l : List (ℕ × DecodedCandidate × ℕ)) (h : l ≠ []) :
    sortCodes l ≠ [] := by
  intro hc
  have hp := sortCodes_perm l
  rw [hc] at hp
  exact h (hp.symm.eq_nil)

theorem sortCodes_sorted (l : List (ℕ × DecodedCandidate × ℕ)) :
    (sortCodes l).Pairwise (fun a b => b.2.2 ≤ a.2.2) := by
  have htrans : ∀ (a b c : ℕ × DecodedCandidate × ℕ),
      (fun a b : ℕ × DecodedCandidate × ℕ => decide (b.2.2 ≤ a.2.2)) a b = true →
      (fun a b : ℕ × DecodedCandidate × ℕ => decide (b.2.2 ≤ a.2.2)) b c = true →
      (fun a b : ℕ × DecodedCandidate × ℕ => decide (b.2.2 ≤ a.2.2)) a c = true := by
    intro a b c hab hbc
    simp only [decide_eq_true_eq] at hab hbc ⊢
    omega
  have htotal : ∀ (a b : ℕ × DecodedCandidate × ℕ),
      ((fun a b : ℕ × DecodedCandidate × ℕ => decide (b.2.2 ≤ a.2.2)) a b ||
       (fun a b : ℕ × DecodedCandidate × ℕ => decide (b.2.2 ≤ a.2.2)) b a) = true := by
    intro a b
    simp only [Bool.or_eq_true, decide_eq_true_eq]
    omega
  have hs := List.sorted_mergeSort htrans htotal l
  exact hs.imp (fun h => by simpa using h)

theorem sortCodes_headD_max (l : List (ℕ × DecodedCandidate × ℕ))
    (d : ℕ × DecodedCandidate × ℕ) (h : l ≠ []) :
    ∀ e ∈ l, e.2.2 ≤ ((sortCodes l).headD d).2.2 := by
  intro e he
  have hmem : e ∈ sortCodes l := ((sortCodes_perm l).mem_iff).2 he
  have hsorted := sortCodes_sorted l
  rcases hsc : sortCodes l with _ | ⟨x, rest⟩
  · exact absurd hsc (sortCodes_ne_nil l h)
  · rw [hsc] at hmem hsorted
    rcases List.mem_cons.1 hmem with rfl | hm
    · simp
    · have hle := (List.pairwise_cons.1 hsorted).1 e hm
      simpa using hle

theorem sortCodes_headD_mem (l : List (ℕ × DecodedCandidate × ℕ))
    (d : ℕ × DecodedCandidate × ℕ) (h : l ≠ []) : (sortCodes l).headD d ∈ l := by
  rcases hsc : sortCodes l with _ | ⟨x, rest⟩
  · exact absurd hsc (sortCodes_ne_nil l h)
  · have hx : x ∈ sortCodes l := by
      rw [hsc]
      exact List.mem_cons_self _ _
    have hxl := ((sortCodes_perm l).mem_iff).1 hx
    simpa [hsc] using hxl

theorem captureBest_max (tol : ℚ) (timings : List (ℕ × Bool))
    (h : captureCodesFound tol timings ≠ []) :
    captureBest tol timings ∈ captureCodesFound tol timings ∧
    ∀ e ∈ captureCodesFound tol timings, e.2.2 ≤ (captureBest tol timings).2.2 := by
  unfold captureBest captureSorted
  exact ⟨sortCodes_headD_mem _ _ h, sortCodes_headD_max _ _ h⟩

/-- C1: every capture outcome is either a success (all six gates pass) or an
`RFDecodeError` tagged with exactly the first failing gate of the fixed order
`NO_SIGNAL, NO_SYNC_GAPS, INSUFFICIENT_SEGMENTS, DECODE_FAILED,
AMBIGUOUS_SIGNAL, WEAK_SIGNAL`, always carrying a non-empty `details`
dictionary that includes the gate's key numeric evidence — never a bare
`none`. -/
theorem capture_gate_contract (tol min_confidence : ℚ) (timings : List (ℕ × Bool))
    (min_segments : ℕ) :
    match capture_single_window tol timings min_confidence min_segments with
    | .error e =>
        firstFailingGate tol timings min_confidence min_segments = some e.error_type ∧
        e.details ≠ [] ∧ gateEvidence tol timings e.error_type ∈ e.details
    | .ok _ => firstFailingGate tol timings min_confidence min_segments = none := by
  unfold capture_single_window firstFailingGate
  split_ifs with h1 h2 h3 h4 h5 h6 <;>
    simp [noSignalError, noSyncGapsError, insufficientSegmentsError, decodeFailedError,
      ambiguousError, weakSignalError, gateEvidence]

/-- Witness for C1 on an empty capture (first gate trips). -/
theorem capture_gate_contract_witness :
    firstFailingGate default_tolerance [] (1 / 2) 3 = some (noSignalError []).error_type ∧
    (noSignalError []).details ≠ [] ∧
    gateEvidence default_tolerance [] (noSignalError []).error_type ∈
      (noSignalError []).details := by
  have h := capture_gate_contract default_tolerance (1 / 2) [] 3
  have hrun : capture_single_window default_tolerance [] (1 / 2) 3 =
      .error (noSignalError []) := rfl
  rw [hrun] at h
  exact h

/-- C6: the primary code is one with maximal repetition count and the returned
confidence is `primary_count / total_decoded` (rounded to two decimals in the
result payload); a confidence below `min_confidence` raises `AMBIGUOUS_SIGNAL`
whose details list the top-5 competing codes with counts and percentages.  In
particular, with six segments decoding to 11184810 and four to 5592405,
`min_confidence = 0.5` succeeds with primary 11184810 at confidence 0.6, and
`min_confidence = 0.7` raises `AMBIGUOUS_SIGNAL` listing 11184810 at 60% and
5592405 at 40%. -/
theorem confidence_gate (tol mc : ℚ) (timings : List (ℕ × Bool)) (ms : ℕ) :
    ((∀ r, capture_single_window tol timings mc ms = .ok r →
        r.code = (captureBest tol timings).2.1.code ∧
        r.confidence = pyRound (captureConfidence tol timings) 2 ∧
        captureBest tol timings ∈ captureCodesFound tol timings ∧
        ∀ e ∈ captureCodesFound tol timings, e.2.2 ≤ (captureBest tol timings).2.2) ∧
     (∀ err, capture_single_window tol timings mc ms = .error err →
        err.error_type = "AMBIGUOUS_SIGNAL" →
        captureConfidence tol timings < mc ∧
        ("competing_codes", Detail.codes (captureCompeting tol timings)) ∈ err.details ∧
        ∀ e ∈ captureCodesFound tol timings, e.2.2 ≤ (captureBest tol timings).2.2)) ∧
    (errType (capture_single_window default_tolerance streamC6 (1 / 2) 3) = none ∧
     (okResult (capture_single_window default_tolerance streamC6 (1 / 2) 3)).map
        (fun r => (r.code, r.confidence)) = some (11184810, 3 / 5) ∧
     errType (capture_single_window default_tolerance streamC6 (7 / 10) 3) =
        some "AMBIGUOUS_SIGNAL" ∧
     ("competing_codes", Detail.codes [⟨11184810, 6, 60⟩, ⟨5592405, 4, 40⟩]) ∈
        errDetails (capture_single_window default_tolerance streamC6 (7 / 10) 3)) := by
  have hgeneral : (∀ r, capture_single_window tol timings mc ms = .ok r →
        r.code = (captureBest tol timings).2.1.code ∧
        r.confidence = pyRound (captureConfidence tol timings) 2 ∧
        captureBest tol timings ∈ captureCodesFound tol timings ∧
        ∀ e ∈ captureCodesFound tol timings, e.2.2 ≤ (captureBest tol timings).2.2) ∧
      (∀ err, capture_single_window tol timings mc ms = .error err →
        err.error_type = "AMBIGUOUS_SIGNAL" →
        captureConfidence tol timings < mc ∧
        ("competing_codes", Detail.codes (captureCompeting tol timings)) ∈ err.details ∧
        ∀ e ∈ captureCodesFound tol timings, e.2.2 ≤ (captureBest tol timings).2.2) := by
    constructor
    · intro r hr
      unfold capture_single_window at hr
      split_ifs at hr with h1 h2 h3 h4 h5 h6
      all_goals first
        | (simp only [Except.ok.injEq] at hr
           subst hr
           have hmax := captureBest_max tol timings h4
           exact ⟨rfl, rfl, hmax.1, hmax.2⟩)
        | simp at hr
    · intro err herr hkind
      unfold capture_single_window at herr
      split_ifs at herr with h1 h2 h3 h4 h5 h6
      all_goals first
        | (simp only [Except.error.injEq] at herr
           subst herr
           first
             | simp [noSignalError] at hkind
             | simp [noSyncGapsError] at hkind
             | simp [insufficientSegmentsError] at hkind
             | simp [decodeFailedError] at hkind
             | simp [weakSignalError] at hkind
             | (have hmax := captureBest_max tol timings h4
                refine ⟨h5, ?_, hmax.2⟩
                simp [ambiguousError]))
        | simp at herr
  refine ⟨hgeneral, ?_⟩
  have hcf : captureCodesFound default_tolerance streamC6 =
      [(11184810, candA, 6), (5592405, candB, 4)] := by
    with_unfolding_all rfl
  have hlen490 : ¬ streamC6.length < 40 := by
    have h : streamC6.length = 490 := by with_unfolding_all rfl
    omega
  have hgaps : ¬ captureSyncGapCount streamC6 < 3 := by
    have h : captureSyncGapCount streamC6 = 10 := by with_unfolding_all rfl
    omega
  have hsegs : ¬ (captureSegments streamC6).length < 3 := by
    have h : (captureSegments streamC6).length = 10 := by with_unfolding_all rfl
    omega
  have hne : ¬ captureCodesFound default_tolerance streamC6 = [] := by
    rw [hcf]
    simp
  have hbest : captureBest default_tolerance streamC6 = (11184810, candA, 6) := by
    unfold captureBest captureSorted
    rw [hcf]
    with_unfolding_all rfl
  have htot : captureTotalDecoded default_tolerance streamC6 = 10 := by
    unfold captureTotalDecoded
    rw [hcf]
    with_unfolding_all rfl
  have hconf : captureConfidence default_tolerance streamC6 = 3 / 5 := by
    unfold captureConfidence
    rw [htot, hbest]
    norm_num
  have hcomp : captureCompeting default_tolerance streamC6 =
      [⟨11184810, 6, 60⟩, ⟨5592405, 4, 40⟩] := by
    unfold captureCompeting captureSorted captureTotalDecoded
    rw [hcf]
    with_unfolding_all rfl
  have hrun1 : capture_single_window default_tolerance streamC6 (1 / 2) 3 =
      .ok (successResult default_tolerance streamC6) := by
    unfold capture_single_window
    rw [if_neg hlen490, if_neg hgaps, if_neg hsegs, if_neg hne,
      if_neg (show ¬ captureConfidence default_tolerance streamC6 < 1 / 2 by
        rw [hconf]; norm_num),
      if_neg (show ¬ (captureBest default_tolerance streamC6).2.2 < 3 by
        rw [hbest]; norm_num)]
  have hrun2 : capture_single_window default_tolerance streamC6 (7 / 10) 3 =
      .error (ambiguousError default_tolerance streamC6 (7 / 10)) := by
    unfold capture_single_window
    rw [if_neg hlen490, if_neg hgaps, if_neg hsegs, if_neg hne,
      if_pos (show captureConfidence default_tolerance streamC6 < 7 / 10 by
        rw [hconf]; norm_num)]
  have hcode1 : (successResult default_tolerance streamC6).code = 11184810 := by
    unfold successResult
    rw [hbest]
    rfl
  have hconf1 : (successResult default_tolerance streamC6).confidence = 3 / 5 := by
    unfold successResult
    rw [hconf]
    with_unfolding_all rfl
  refine ⟨by rw [hrun1]; rfl, ?_, by rw [hrun2]; rfl, ?_⟩
  · rw [hrun1]
    simp [okResult, hcode1, hconf1]
  · rw [hrun2]
    simp only [errDetails, ambiguousError]
    rw [hcomp]
    simp

/-- Witness for C6: the concrete six-versus-four scenario, obtained by
applying the confidence-gate theorem. -/
theorem confidence_gate_witness :
    errType (capture_single_window default_tolerance streamC6 (1 / 2) 3) = none ∧
    (okResult (capture_single_window default_tolerance streamC6 (1 / 2) 3)).map
      (fun r => (r.code, r.confidence)) = some (11184810, 3 / 5) ∧
    errType (capture_single_window default_tolerance streamC6 (7 / 10) 3) =
      some "AMBIGUOUS_SIGNAL" ∧
    ("competing_codes", Detail.codes [⟨11184810, 6, 60⟩, ⟨5592405, 4, 40⟩]) ∈
      errDetails (capture_single_window default_tolerance streamC6 (7 / 10) 3) :=
  (confidence_gate default_tolerance (1 / 2) streamC6 3).2

/-- Counterexample to C7: on a clean three-frame capture every segment
decodes, so `total_decoded / segments_found = 1`, yet the success result's
`decode_success_rate` field is `100.0` — the source stores the percentage
`round(total_decoded / segments_found * 100, 1)`, not the bare ratio the
claim states. -/
theorem success_rate_counterexample :
    (okResult (capture_single_window default_tolerance streamC7 (1 / 2) 3)).map
      (fun r => r.decode_success_rate) = some 100 ∧
    (captureTotalDecoded default_tolerance streamC7 : ℚ) /
      ((captureSegments streamC7).length : ℚ) = 1 ∧
    (100 : ℚ) ≠ 1 := by
  refine ⟨by with_unfolding_all rfl, ?_, by norm_num⟩
  have h1 : captureTotalDecoded default_tolerance streamC7 = 3 := by with_unfolding_all rfl
  have h2 : (captureSegments streamC7).length = 3 := by with_unfolding_all rfl
  rw [h1, h2]
  norm_num

/-- Amended C7: whenever all six gates pass, the returned
`decode_success_rate` equals the decoded fraction expressed as a percentage
rounded to one decimal, `round(total_decoded / segments_found * 100, 1)`. -/
theorem success_rate_amended (tol mc : ℚ) (timings : List (ℕ × Bool)) (ms : ℕ)
    (r : CaptureResult) (h : capture_single_window tol timings mc ms = .ok r) :
    r.decode_success_rate = pyRound ((captureTotalDecoded tol timings : ℚ) /
      ((captureSegments timings).length : ℚ) * 100) 1 := by
  unfold capture_single_window at h
  split_ifs at h with h1 h2 h3 h4 h5 h6
  all_goals first
    | (simp only [Except.ok.injEq] at h
       subst h
       rfl)
    | simp at h

/-- Witness for the amended C7 on the clean three-frame capture. -/
theorem success_rate_amended_witness :
    (okResult (capture_single_window default_tolerance streamC7 (1 / 2) 3)).map
      (fun r => r.decode_success_rate) =
    some (pyRound ((captureTotalDecoded default_tolerance streamC7 : ℚ) /
      ((captureSegments streamC7).length : ℚ) * 100) 1) := by
  have hrun : capture_single_window default_tolerance streamC7 (1 / 2) 3 =
      .ok (successResult default_tolerance streamC7) := by
    with_unfolding_all rfl
  have h := success_rate_amended default_tolerance (1 / 2) streamC7 3
    (successResult default_tolerance streamC7) hrun
  rw [hrun]
  simp [okResult, h]

/-- Counterexample to C9: `capture_single_window` performs GPIO setup but
never releases the pin on any exit path — here the first gate trips
(`NO_SIGNAL`), control returns to the caller, and the decoder still holds the
configured pin (`_setup_done` remains true, no cleanup event occurred). -/
theorem gpio_release_counterexample :
    errType (capture_single_window_effects default_tolerance ⟨27, false⟩ [] (1 / 2) 3).1 =
      some "NO_SIGNAL" ∧
    (capture_single_window_effects default_tolerance ⟨27, false⟩ [] (1 / 2) 3).2.1.setup_done =
      true ∧
    GpioEvent.cleanupPin 27 ∉
      (capture_single_window_effects default_tolerance ⟨27, false⟩ [] (1 / 2) 3).2.2 := by
  refine ⟨rfl, rfl, ?_⟩
  decide

/-- Amended C9: the decoder performs idempotent GPIO setup at the start of
`capture_single_window` and keeps the pin configured on every exit path;
release happens only when the caller separately invokes `cleanup`, which then
clears `_setup_done` and emits the release. -/
theorem gpio_retained_amended (tol mc : ℚ) (st : DecoderState)
    (timings : List (ℕ × Bool)) (ms : ℕ) :
    (capture_single_window_effects tol st timings mc ms).2.1.setup_done = true ∧
    (∀ p, GpioEvent.cleanupPin p ∉
      (capture_single_window_effects tol st timings mc ms).2.2) ∧
    (cleanup (capture_single_window_effects tol st timings mc ms).2.1).1.setup_done = false ∧
    (cleanup (capture_single_window_effects tol st timings mc ms).2.1).2 =
      [GpioEvent.cleanupPin st.gpio_pin] := by
  by_cases h : st.setup_done <;>
    simp [capture_single_window_effects, setup, cleanup, h]

/-- Witness for the amended C9 at a concrete fresh decoder state. -/
theorem gpio_retained_amended_witness :
    (capture_single_window_effects default_tolerance ⟨17, false⟩ [] (1 / 2) 3).2.1.setup_done =
      true ∧
    GpioEvent.cleanupPin 17 ∉
      (capture_single_window_effects default_tolerance ⟨17, false⟩ [] (1 / 2) 3).2.2 ∧
    (cleanup (capture_single_window_effects default_tolerance ⟨17, false⟩ []
      (1 / 2) 3).2.1).1.setup_done = false ∧
    (cleanup (capture_single_window_effects default_tolerance ⟨17, false⟩ []
      (1 / 2) 3).2.1).2 = [GpioEvent.cleanupPin 17] := by
  have h := gpio_retained_amended default_tolerance (1 / 2) ⟨17, false⟩ [] 3
  exact ⟨h.1, h.2.1 17, h.2.2.1, h.2.2.2⟩

end RFDecoder
